import Mathlib

/-!
Shallow embedding of the ContactSphere relationship-inference engine
(`backend/relationship_inference.py`) together with theorems checking the
specification's claims about it.

Python strings are modelled as Lean `String`, Python `None`/optional fields as
`Option`, Python floats (only the fixed strength constants occur) as `ℚ`,
Python dicts as insertion-ordered association lists, and the dynamically typed
contents of `raw_data` as the inductive `PyVal`.  Code paths that can raise a
Python exception are modelled with `Except String`.
-/

namespace ContactSphere

/-! ### Python string primitives

The Python methods `str.strip`, `str.lower`, `str.replace`, substring
containment (`in`) and `str.split` are modelled by structurally recursive
functions on the character list of a `String` (the inputs here are ASCII, so
ASCII case-folding matches Python's `lower`). -/

/-- The whitespace characters stripped by Python's `str.strip()`. -/
def isPySpace (c : Char) : Bool :=
  c = ' ' ∨ c = '\t' ∨ c = '\n' ∨ c = '\r' ∨ c = '\x0b' ∨ c = '\x0c'

/-- `s.strip()`. -/
def pyStrip (s : String) : String :=
  ⟨((s.data.dropWhile isPySpace).reverse.dropWhile isPySpace).reverse⟩

def pyLowerChar (c : Char) : Char :=
  if 'A' ≤ c ∧ c ≤ 'Z' then Char.ofNat (c.toNat + 32) else c

/-- `s.lower()`. -/
def pyLower (s : String) : String := ⟨s.data.map pyLowerChar⟩

/-- `s.replace(x, y)` for one-character `x` and `y`. -/
def replaceChar (s : String) (x y : Char) : String :=
  ⟨s.data.map (fun c => if c = x then y else c)⟩

/-- `s.replace(x, '')` for a one-character `x`. -/
def deleteChar (s : String) (x : Char) : String :=
  ⟨s.data.filter (fun c => ¬ c = x)⟩

def isPrefixChars : List Char → List Char → Bool
  | [], _ => true
  | _ :: _, [] => false
  | p :: ps, c :: cs => p = c && isPrefixChars ps cs

def containsSubChars (hay pat : List Char) : Bool :=
  match hay with
  | [] => pat.isEmpty
  | _ :: rest => isPrefixChars pat hay || containsSubChars rest pat

/-- Python `pat in s`. -/
def containsSub (s pat : String) : Bool := containsSubChars s.data pat.data

/-- A dynamically-typed Python value, as found inside `Contact.raw_data`. -/
inductive PyVal where
  | str (s : String)
  | int (n : Int)
  | bool (b : Bool)
  | pyNone
  | list (xs : List PyVal)
  | dict (xs : List (String × PyVal))

/-- Python truthiness (`if value:`) for a `PyVal`. -/
def pyTruthy : PyVal → Bool
  | .str s => s ≠ ""
  | .int n => n ≠ 0
  | .bool b => b
  | .pyNone => false
  | .list xs => ¬ xs.isEmpty
  | .dict xs => ¬ xs.isEmpty

/-- `d.get(k, dflt)` on a Python dict modelled as an association list. -/
def dictGetD (d : List (String × PyVal)) (k : String) (dflt : PyVal) : PyVal :=
  match d.find? (fun kv => kv.1 = k) with
  | some kv => kv.2
  | none => dflt

/-- `models.Contact` restricted to the fields the inference engine reads. -/
structure Contact where
  id : String
  name : String
  email : Option String := none
  organization : Option String := none
  previous_organization : Option String := none
  city : Option String := none
  birthday : Option String := none
  tags : List String := []
  raw_data : List (String × PyVal) := []

/-- `models.ContactEdge`. -/
structure ContactEdge where
  edge_id : Option String := none
  source_id : String
  target_id : String
  relationship_type : String
  strength : ℚ := 1
  metadata : Option (List (String × PyVal)) := none

/-- Append `c` to the bucket of `key`, creating the bucket at the end when the
key is new — the behaviour of `groups[key].append(contact)` after
`if key not in groups: groups[key] = []` on an insertion-ordered dict. -/
def addToBucket (groups : List (String × List Contact)) (key : String)
    (c : Contact) : List (String × List Contact) :=
  match groups with
  | [] => [(key, [c])]
  | kv :: rest =>
      if kv.1 = key then (kv.1, kv.2 ++ [c]) :: rest
      else kv :: addToBucket rest key c

/-- Keep only buckets with more than one member
(`{k: v for k, v in groups.items() if len(v) > 1}`). -/
def keepMulti (groups : List (String × List Contact)) :
    List (String × List Contact) :=
  groups.filter (fun kv => kv.2.length > 1)

/-- `getattr(contact, attr, None)` for the two attributes the engine passes. -/
def getAttr (c : Contact) (attr : String) : Option String :=
  if attr = "organization" then c.organization
  else if attr = "city" then c.city
  else none

/-- One iteration of the loop body of `_group_by_attribute`. -/
def groupByAttributeStep (attr : String)
    (groups : List (String × List Contact)) (c : Contact) :
    List (String × List Contact) :=
  let groups1 :=
    match getAttr c attr with
    | some v =>
        if v = "" then groups
        else if pyStrip v = "" then groups
        else addToBucket groups (pyLower (pyStrip v)) c
    | none => groups
  if attr = "organization" then
    match c.previous_organization with
    | some p =>
        if p = "" then groups1
        else if pyStrip p = "" then groups1
        else addToBucket groups1 (pyLower (pyStrip p)) c
    | none => groups1
  else groups1

/-- `_group_by_attribute`. -/
def group_by_attribute (contacts : List Contact) (attr : String) :
    List (String × List Contact) :=
  keepMulti (contacts.foldl (groupByAttributeStep attr) [])

/-- `_extract_domain`: `email.split('@')[1].lower().strip()` when `'@'` is
present.  `split('@')[1]` is the text between the first `'@'` and the next
`'@'` (or the end of the string). -/
def extract_domain (email : String) : Option String :=
  if email.data.contains '@' then
    some (pyStrip (pyLower
      ⟨((email.data.dropWhile (fun c => ¬ c = '@')).drop 1).takeWhile
        (fun c => ¬ c = '@')⟩))
  else none

/-- The fixed denylist `consumer_domains` of `_is_meaningful_domain`. -/
def consumer_domains : List String :=
  ["gmail.com", "yahoo.com", "hotmail.com", "outlook.com",
   "aol.com", "icloud.com", "me.com", "live.com", "msn.com",
   "web.de", "gmx.com", "gmx.de", "yandex.com", "mail.ru",
   "t-online.de"]

/-- `_is_meaningful_domain`. -/
def is_meaningful_domain (domain : String) : Bool :=
  domain ∉ consumer_domains

/-- One iteration of the loop body of `_group_by_email_domain`. -/
def groupByEmailDomainStep (groups : List (String × List Contact))
    (c : Contact) : List (String × List Contact) :=
  match c.email with
  | some e =>
      if e = "" then groups
      else
        match extract_domain e with
        | some d =>
            if d ≠ "" ∧ is_meaningful_domain d then addToBucket groups d c
            else groups
        | none => groups
  | none => groups

/-- `_group_by_email_domain`. -/
def group_by_email_domain (contacts : List Contact) :
    List (String × List Contact) :=
  keepMulti (contacts.foldl groupByEmailDomainStep [])

/-- One iteration of the loop body of `_group_by_birthday`.  Note the raw
birthday string is used as the key verbatim. -/
def groupByBirthdayStep (groups : List (String × List Contact))
    (c : Contact) : List (String × List Contact) :=
  match c.birthday with
  | some b => if b = "" then groups else addToBucket groups b c
  | none => groups

/-- `_group_by_birthday`. -/
def group_by_birthday (contacts : List Contact) :
    List (String × List Contact) :=
  keepMulti (contacts.foldl groupByBirthdayStep [])

/-- `_group_by_tags`: every tag string is a key, verbatim. -/
def group_by_tags (contacts : List Contact) :
    List (String × List Contact) :=
  keepMulti (contacts.foldl
    (fun groups c => c.tags.foldl (fun g t => addToBucket g t c) groups) [])

/-- `school_keywords` in `_extract_schools`. -/
def school_keywords : List String :=
  ["university", "college", "school", "institute", "academy"]

/-- `known_schools` in `_extract_schools`.  The Python source is missing a
comma between `'berkeley'` and `'oxford'`, so the two adjacent string
literals concatenate into the single element `"berkeleyoxford"`. -/
def known_schools : List String :=
  ["mit", "stanford", "harvard", "caltech", "ucla", "usc", "berkeleyoxford",
   "cambridge", "yale", "princeton", "columbia", "cornell"]

/-- `org.get('type') == 'school'` for a value already fetched from a dict. -/
def isSchoolType : PyVal → Bool
  | .str s => s = "school"
  | _ => false

/-- Python set insertion modelled as a deduplicating ordered list. -/
def setAdd (l : List String) (s : String) : List String :=
  if s ∈ l then l else l ++ [s]

/-- Iterating a Python value with `for x in v`: lists yield their elements,
dicts their keys, strings their characters (as 1-character strings); other
values raise `TypeError`. -/
def pyIter : PyVal → Except String (List PyVal)
  | .list xs => .ok xs
  | .dict xs => .ok (xs.map (fun kv => .str kv.1))
  | .str s => .ok (s.toList.map (fun ch => .str (String.singleton ch)))
  | _ => .error "TypeError"

/-- The body of the `for org in organizations` loop of `_extract_schools`:
either the school name contributed by the entry (already normalized), or the
Python exception it raises.  `.get` on a non-dict raises `AttributeError`;
so does `.strip()` on a truthy non-string name. -/
def schoolFromEntry : PyVal → Except String (Option String)
  | .dict d =>
      if isSchoolType (dictGetD d "type" .pyNone) then
        let nm := dictGetD d "name" .pyNone
        if pyTruthy nm then
          match nm with
          | .str s => .ok (some (pyLower (pyStrip s)))
          | _ => .error "AttributeError"
        else .ok none
      else .ok none
  | _ => .error "AttributeError"

/-- The `for org in organizations` loop of `_extract_schools`, accumulating
the school set and propagating the first exception. -/
def schoolsLoop : List PyVal → List String → Except String (List String)
  | [], acc => .ok acc
  | org :: rest, acc =>
      match schoolFromEntry org with
      | .error e => .error e
      | .ok (some s) => schoolsLoop rest (setAdd acc s)
      | .ok none => schoolsLoop rest acc

/-- `_extract_schools`. -/
def extract_schools (c : Contact) : Except String (List String) :=
  let base : List String :=
    match c.organization with
    | some org =>
        if org = "" then []
        else
          let orgLower := pyLower org
          if school_keywords.any (fun kw => containsSub orgLower kw)
              ∨ known_schools.any (fun sch => containsSub orgLower sch) then
            [pyLower (pyStrip org)]
          else []
    | none => []
  match pyIter (dictGetD c.raw_data "organizations" (.list [])) with
  | .error e => .error e
  | .ok items => schoolsLoop items base

/-- The contact loop of `_group_by_schools`. -/
def schoolGroupsLoop : List Contact → List (String × List Contact) →
    Except String (List (String × List Contact))
  | [], g => .ok g
  | c :: rest, g =>
      match extract_schools c with
      | .error e => .error e
      | .ok schools =>
          schoolGroupsLoop rest (schools.foldl (fun g2 s => addToBucket g2 s c) g)

/-- `_group_by_schools`. -/
def group_by_schools (contacts : List Contact) :
    Except String (List (String × List Contact)) :=
  match schoolGroupsLoop contacts [] with
  | .error e => .error e
  | .ok groups => .ok (keepMulti groups)

/-- The nested pair loop `for i, c1 in enumerate(contacts): for c2 in
contacts[i+1:]` shared by all clique-style edge generators. -/
def cliqueEdges (mkE : Contact → Contact → ContactEdge) :
    List Contact → List ContactEdge
  | [] => []
  | c :: rest => rest.map (mkE c) ++ cliqueEdges mkE rest

/-- The synthetic organization-hub id
`f"org_{company.lower().replace(' ', '_').replace('.', '').replace(',', '')}"`. -/
def orgId (company : String) : String :=
  "org_" ++ deleteChar (deleteChar (replaceChar (pyLower company) ' ' '_') '.') ','

/-- Edges contributed by one organization group in
`_create_company_relationships`. -/
def companyEdgesForGroup (company : String) (members : List Contact) :
    List ContactEdge :=
  let n := members.length
  if n > 200 then []
  else if n ≤ 10 then
    cliqueEdges (fun c1 c2 =>
      { source_id := c1.id, target_id := c2.id,
        relationship_type := "CLOSE_COLLEAGUES", strength := 9/10,
        metadata := some [("organization", .str company),
                          ("company_size", .int n)] }) members
  else
    members.map (fun c =>
      { source_id := c.id, target_id := orgId company,
        relationship_type := "WORKS_AT", strength := 7/10,
        metadata := some [("organization", .str company),
                          ("company_size", .int n),
                          ("is_hub_connection", .bool true)] })

/-- Concatenate the per-group edge lists in group order (`edges.extend`). -/
def concatGroups (f : String → List Contact → List ContactEdge) :
    List (String × List Contact) → List ContactEdge
  | [] => []
  | kv :: rest => f kv.1 kv.2 ++ concatGroups f rest

/-- `_create_company_relationships`. -/
def create_company_relationships (groups : List (String × List Contact)) :
    List ContactEdge :=
  concatGroups companyEdgesForGroup groups

/-- Edges contributed by one city group in `_create_location_relationships`. -/
def locationEdgesForGroup (city : String) (members : List Contact) :
    List ContactEdge :=
  if members.length > 50 then []
  else
    cliqueEdges (fun c1 c2 =>
      { source_id := c1.id, target_id := c2.id,
        relationship_type := "LIVES_IN", strength := 3/10,
        metadata := some [("city", .str city)] }) members

/-- `_create_location_relationships`. -/
def create_location_relationships (groups : List (String × List Contact)) :
    List ContactEdge :=
  concatGroups locationEdgesForGroup groups

/-- Edges contributed by one group in `_create_edges_from_groups`. -/
def edgesForGroup (relationship_type : String) (strength : ℚ)
    (group_key : String) (members : List Contact) : List ContactEdge :=
  if members.length > 30 then []
  else
    cliqueEdges (fun c1 c2 =>
      { source_id := c1.id, target_id := c2.id,
        relationship_type := relationship_type, strength := strength,
        metadata := some [("shared_attribute", .str group_key)] }) members

/-- `_create_edges_from_groups`. -/
def create_edges_from_groups (groups : List (String × List Contact))
    (relationship_type : String) (strength : ℚ) : List ContactEdge :=
  concatGroups (edgesForGroup relationship_type strength) groups

/-- `infer_all_relationships`.  The school grouping can propagate a Python
exception from `_extract_schools`; everything else is pure. -/
def infer_all_relationships (contacts : List Contact) :
    Except String (List ContactEdge) :=
  match group_by_schools contacts with
  | .error e => .error e
  | .ok school_groups =>
      .ok (create_company_relationships (group_by_attribute contacts "organization")
        ++ create_location_relationships (group_by_attribute contacts "city")
        ++ create_edges_from_groups (group_by_email_domain contacts) "WORKS_WITH" (7/10)
        ++ create_edges_from_groups (group_by_birthday contacts) "SHARES_BIRTHDAY" (3/10)
        ++ create_edges_from_groups school_groups "ALUMNI_OF" (6/10)
        ++ create_edges_from_groups (group_by_tags contacts) "SHARED_TAG" (6/10))

/-! ## General lemmas about the edge generators -/

/-- Membership in a concatenation of per-group edge lists. -/
theorem mem_concatGroups {f : String → List Contact → List ContactEdge}
    {groups : List (String × List Contact)} {e : ContactEdge}
    (he : e ∈ concatGroups f groups) : ∃ kv ∈ groups, e ∈ f kv.1 kv.2 := by
  induction groups with
  | nil => simp [concatGroups] at he
  | cons kv rest ih =>
      simp only [concatGroups, List.mem_append] at he
      rcases he with he | he
      · exact ⟨kv, List.mem_cons_self kv rest, he⟩
      · obtain ⟨kv', hkv', he'⟩ := ih he
        exact ⟨kv', List.mem_cons_of_mem kv hkv', he'⟩

/-- Every clique edge is built from two members of the group. -/
theorem mem_cliqueEdges {mkE : Contact → Contact → ContactEdge}
    {l : List Contact} {e : ContactEdge} (he : e ∈ cliqueEdges mkE l) :
    ∃ x ∈ l, ∃ y ∈ l, e = mkE x y := by
  induction l with
  | nil => simp [cliqueEdges] at he
  | cons c rest ih =>
      simp only [cliqueEdges, List.mem_append, List.mem_map] at he
      rcases he with ⟨y, hy, rfl⟩ | he
      · exact ⟨c, by simp, y, by simp [hy], rfl⟩
      · obtain ⟨x, hx, y, hy, rfl⟩ := ih he
        exact ⟨x, by simp [hx], y, by simp [hy], rfl⟩

/-- The pair loop emits `n·(n-1)/2` edges (stated without division). -/
theorem length_cliqueEdges (mkE : Contact → Contact → ContactEdge) :
    ∀ l : List Contact,
      2 * (cliqueEdges mkE l).length = l.length * (l.length - 1)
  | [] => by simp [cliqueEdges]
  | c :: rest => by
      have ih := length_cliqueEdges mkE rest
      simp only [cliqueEdges, List.length_append, List.length_map,
        List.length_cons]
      cases h : rest.length with
      | zero =>
          rw [h] at ih
          omega
      | succ k =>
          rw [h] at ih
          have h2 : 2 * (cliqueEdges mkE rest).length = (k + 1) * k := by
            simpa using ih
          have h3 : 2 * (k + 1 + (cliqueEdges mkE rest).length)
              = 2 * (k + 1) + (k + 1) * k := by omega
          rw [h3, Nat.add_sub_cancel]
          ring

/-- The uniform per-group clique policy: `n·(n-1)/2` edges, all carrying the
family's fixed relationship type, strength and metadata, and connecting only
members of the group. -/
def cliquePolicyOK (edges : List ContactEdge) (members : List Contact)
    (rt : String) (s : ℚ) (meta : List (String × PyVal)) : Prop :=
  edges.length = members.length * (members.length - 1) / 2 ∧
  ∀ e ∈ edges, e.relationship_type = rt ∧ e.strength = s ∧
    e.metadata = some meta ∧
    e.source_id ∈ members.map Contact.id ∧ e.target_id ∈ members.map Contact.id

theorem cliquePolicy_of_mk (rt : String) (s : ℚ) (meta : List (String × PyVal))
    (members : List Contact) :
    cliquePolicyOK
      (cliqueEdges (fun c1 c2 =>
        { source_id := c1.id, target_id := c2.id, relationship_type := rt,
          strength := s, metadata := some meta }) members)
      members rt s meta := by
  constructor
  · have h := length_cliqueEdges (fun c1 c2 =>
      { source_id := c1.id, target_id := c2.id, relationship_type := rt,
        strength := s, metadata := some meta }) members
    omega
  · intro e he
    obtain ⟨x, hx, y, hy, rfl⟩ := mem_cliqueEdges he
    refine ⟨rfl, rfl, rfl, ?_, ?_⟩
    · exact List.mem_map.mpr ⟨x, hx, rfl⟩
    · exact List.mem_map.mpr ⟨y, hy, rfl⟩

/-- Keys of `addToBucket` are the old keys plus the inserted key. -/
theorem addToBucket_keys {P : String → Prop}
    {groups : List (String × List Contact)} {key : String} {c : Contact}
    (hg : ∀ kv ∈ groups, P kv.1) (hk : P key) :
    ∀ kv ∈ addToBucket groups key c, P kv.1 := by
  induction groups with
  | nil =>
      intro kv hkv
      simp only [addToBucket, List.mem_singleton] at hkv
      subst hkv
      exact hk
  | cons kv0 rest ih =>
      intro kv hkv
      simp only [addToBucket] at hkv
      by_cases h : kv0.1 = key
      · rw [if_pos h] at hkv
        rcases List.mem_cons.mp hkv with rfl | hkv
        · exact hg kv0 (List.mem_cons_self kv0 rest)
        · exact hg kv (List.mem_cons_of_mem kv0 hkv)
      · rw [if_neg h] at hkv
        rcases List.mem_cons.mp hkv with rfl | hkv
        · exact hg kv (List.mem_cons_self kv rest)
        · exact ih (fun kv' hkv' => hg kv' (List.mem_cons_of_mem kv0 hkv')) kv hkv

/-- Invariant on the grouping folds: a property of keys preserved by each
step holds for all keys of the result. -/
theorem foldl_keys {β : Type} {P : String → Prop}
    (f : List (String × List Contact) → β → List (String × List Contact)) :
    ∀ (l : List β) (init : List (String × List Contact)),
      (∀ kv ∈ init, P kv.1) →
      (∀ acc b, b ∈ l → (∀ kv ∈ acc, P kv.1) → ∀ kv ∈ f acc b, P kv.1) →
      ∀ kv ∈ l.foldl f init, P kv.1
  | [], init, h0, _ => by simpa using h0
  | b :: rest, init, h0, hstep => by
      simp only [List.foldl_cons]
      exact foldl_keys f rest (f init b)
        (hstep init b (List.mem_cons_self b rest) h0)
        (fun acc b' hb' => hstep acc b' (List.mem_cons_of_mem b hb'))

/-- Key property transfer through the `len(v) > 1` filter. -/
theorem keepMulti_subset {groups : List (String × List Contact)}
    {kv : String × List Contact} (h : kv ∈ keepMulti groups) :
    kv ∈ groups ∧ kv.2.length > 1 := by
  have h' := List.mem_filter.mp h
  exact ⟨h'.1, by simpa using h'.2⟩

/-- Does edge `e` connect the unordered pair of ids `{a, b}`? -/
def connects (a b : String) (e : ContactEdge) : Bool :=
  (e.source_id == a && e.target_id == b) || (e.source_id == b && e.target_id == a)

theorem countP_id_le_one :
    ∀ (l : List Contact), (l.map Contact.id).Nodup →
      ∀ z, l.countP (fun y => y.id == z) ≤ 1
  | [], _, z => by simp
  | c :: rest, h, z => by
      obtain ⟨h1, h2⟩ : c.id ∉ rest.map Contact.id ∧
          (rest.map Contact.id).Nodup := by
        simpa [List.nodup_cons] using h
      have ih := countP_id_le_one rest h2 z
      rw [List.countP_cons]
      by_cases hz : c.id = z
      · have hz0 : rest.countP (fun y => y.id == z) = 0 :=
          List.countP_eq_zero.mpr (fun y hy => by
            simp only [beq_iff_eq]
            intro hyz
            exact h1 (by
              rw [hz, ← hyz]
              exact List.mem_map.mpr ⟨y, hy, rfl⟩))
        rw [hz0]
        split <;> simp
      · simp only [beq_iff_eq, hz, if_false]
        omega

/-- Within one group, the `i < j` pair loop emits at most one edge per
unordered pair of ids, provided no contact occurs twice in the group. -/
theorem countP_cliqueEdges_le_one
    (mkE : Contact → Contact → ContactEdge)
    (hs : ∀ x y, (mkE x y).source_id = x.id)
    (ht : ∀ x y, (mkE x y).target_id = y.id) :
    ∀ (l : List Contact), (l.map Contact.id).Nodup → ∀ a b,
      (cliqueEdges mkE l).countP (connects a b) ≤ 1
  | [], _, a, b => by simp [cliqueEdges]
  | c :: rest, h, a, b => by
      obtain ⟨hnotin, hnd⟩ : c.id ∉ rest.map Contact.id ∧
          (rest.map Contact.id).Nodup := by
        simpa [List.nodup_cons] using h
      have ih := countP_cliqueEdges_le_one mkE hs ht rest hnd a b
      have hidmem : ∀ (y : Contact) (z : String), y ∈ rest → y.id = z →
          z = c.id → False := fun y z hy hyz hzc =>
        hnotin (by
          rw [← hzc, ← hyz]
          exact List.mem_map.mpr ⟨y, hy, rfl⟩)
      simp only [cliqueEdges, List.countP_append, List.countP_map]
      by_cases hca : c.id = a <;> by_cases hcb : c.id = b
      · -- c.id = a = b: head block counts occurrences of a in rest, none
        have hhead : rest.countP (connects a b ∘ mkE c) = 0 :=
          List.countP_eq_zero.mpr (fun y hy => by
            simp only [Function.comp_apply, connects, hs, ht,
              Bool.or_eq_true, Bool.and_eq_true, beq_iff_eq, not_or, not_and]
            exact ⟨fun _ hyb => hidmem y b hy hyb hcb.symm,
                   fun _ hya => hidmem y a hy hya hca.symm⟩)
        omega
      · -- c.id = a ≠ b: head ≤ 1 by nodup, tail has no edge touching a
        have hhead : rest.countP (connects a b ∘ mkE c) ≤ 1 := by
          have hmono : rest.countP (connects a b ∘ mkE c)
              ≤ rest.countP (fun y => y.id == b) := by
            refine List.countP_mono_left (fun y hy hc => ?_)
            simp only [Function.comp_apply, connects, hs, ht,
              Bool.or_eq_true, Bool.and_eq_true, beq_iff_eq] at hc
            rcases hc with ⟨_, hyb⟩ | ⟨hcb', _⟩
            · simpa using hyb
            · exact absurd hcb' hcb
          exact le_trans hmono (countP_id_le_one rest hnd b)
        have htail : (cliqueEdges mkE rest).countP (connects a b) = 0 :=
          List.countP_eq_zero.mpr (fun e he => by
            obtain ⟨x, hx, y, hy, rfl⟩ := mem_cliqueEdges he
            simp only [connects, hs, ht, Bool.or_eq_true, Bool.and_eq_true,
              beq_iff_eq, not_or, not_and]
            exact ⟨fun hxa _ => hidmem x a hx hxa hca.symm,
                   fun _ hya => hidmem y a hy hya hca.symm⟩)
        omega
      · -- c.id = b ≠ a: symmetric
        have hhead : rest.countP (connects a b ∘ mkE c) ≤ 1 := by
          have hmono : rest.countP (connects a b ∘ mkE c)
              ≤ rest.countP (fun y => y.id == a) := by
            refine List.countP_mono_left (fun y hy hc => ?_)
            simp only [Function.comp_apply, connects, hs, ht,
              Bool.or_eq_true, Bool.and_eq_true, beq_iff_eq] at hc
            rcases hc with ⟨hca', _⟩ | ⟨_, hya⟩
            · exact absurd hca' hca
            · simpa using hya
          exact le_trans hmono (countP_id_le_one rest hnd a)
        have htail : (cliqueEdges mkE rest).countP (connects a b) = 0 :=
          List.countP_eq_zero.mpr (fun e he => by
            obtain ⟨x, hx, y, hy, rfl⟩ := mem_cliqueEdges he
            simp only [connects, hs, ht, Bool.or_eq_true, Bool.and_eq_true,
              beq_iff_eq, not_or, not_and]
            exact ⟨fun _ hyb => hidmem y b hy hyb hcb.symm,
                   fun hxb _ => hidmem x b hx hxb hcb.symm⟩)
        omega
      · -- c.id is neither a nor b: head block contributes nothing
        have hhead : rest.countP (connects a b ∘ mkE c) = 0 :=
          List.countP_eq_zero.mpr (fun y hy => by
            simp [connects, hs, ht, hca, hcb, Function.comp])
        omega

/-! ## Concrete contacts used by witnesses and counterexamples -/

def wAcme1 : Contact := { id := "a1", name := "A1", organization := some "Acme" }

def wAcme2 : Contact := { id := "a2", name := "A2", organization := some "Acme" }

def mkAcmeWorker (j : Nat) : Contact :=
  { id := "w" ++ Nat.repr j, name := "W", organization := some "Acme Corp" }

def hubContacts : List Contact := (List.range 11).map mkAcmeWorker

def bigOrgContacts : List Contact := (List.range 201).map mkAcmeWorker

/-- On a list of contacts that all carry the same current organization and no
previous organization, the organization grouping returns the single group of
all of them under the normalized key. -/
theorem foldl_orgStep_uniform (v : String) (hv : v ≠ "") (hvt : pyStrip v ≠ "") :
    ∀ (cs : List Contact) (acc : List Contact),
      (∀ c ∈ cs, c.organization = some v ∧ c.previous_organization = none) →
      cs.foldl (groupByAttributeStep "organization") [(pyLower (pyStrip v), acc)]
        = [(pyLower (pyStrip v), acc ++ cs)]
  | [], acc, _ => by simp
  | c :: rest, acc, h => by
      obtain ⟨hco, hcp⟩ := h c (List.mem_cons_self c rest)
      have hrest := fun c' hc' => h c' (List.mem_cons_of_mem c hc')
      have hstep : groupByAttributeStep "organization" [(pyLower (pyStrip v), acc)] c
          = [(pyLower (pyStrip v), acc ++ [c])] := by
        simp [groupByAttributeStep, getAttr, hco, hcp, if_neg hv, if_neg hvt,
          addToBucket]
      rw [List.foldl_cons, hstep,
        foldl_orgStep_uniform v hv hvt rest (acc ++ [c]) hrest]
      simp

theorem group_by_attribute_uniform (v : String) (hv : v ≠ "")
    (hvt : pyStrip v ≠ "") (cs : List Contact)
    (h : ∀ c ∈ cs, c.organization = some v ∧ c.previous_organization = none)
    (hlen : 2 ≤ cs.length) :
    group_by_attribute cs "organization" = [(pyLower (pyStrip v), cs)] := by
  cases cs with
  | nil => simp at hlen
  | cons c rest =>
      obtain ⟨hco, hcp⟩ := h c (List.mem_cons_self c rest)
      have hrest := fun c' hc' => h c' (List.mem_cons_of_mem c hc')
      have hstep : groupByAttributeStep "organization" [] c
          = [(pyLower (pyStrip v), [c])] := by
        simp [groupByAttributeStep, getAttr, hco, hcp, if_neg hv, if_neg hvt,
          addToBucket]
      rw [group_by_attribute, List.foldl_cons, hstep,
        foldl_orgStep_uniform v hv hvt rest [c] hrest]
      have hgt : 0 < rest.length := by
        simp only [List.length_cons] at hlen
        omega
      simp [keepMulti, hgt]

/-! ## Claims -/

/-- Claim C1: for every organization group with member count `n` produced by
the organization grouping, the group has at least 2 members; if `n ≤ 10` it
contributes exactly `n·(n-1)/2` `CLOSE_COLLEAGUES` edges among those members,
each with strength 0.9; if `11 ≤ n ≤ 200` it contributes exactly `n`
`WORKS_AT` edges, one per member, each targeting the synthetic hub id with
strength 0.7; if `n > 200` it contributes zero edges. -/
theorem org_group_edge_policy (cs : List Contact) (k : String)
    (members : List Contact)
    (hmem : (k, members) ∈ group_by_attribute cs "organization") :
    2 ≤ members.length ∧
    (members.length ≤ 10 →
      (companyEdgesForGroup k members).length
          = members.length * (members.length - 1) / 2 ∧
      ∀ e ∈ companyEdgesForGroup k members,
        e.relationship_type = "CLOSE_COLLEAGUES" ∧ e.strength = 9/10 ∧
        e.source_id ∈ members.map Contact.id ∧
        e.target_id ∈ members.map Contact.id) ∧
    (11 ≤ members.length → members.length ≤ 200 →
      (companyEdgesForGroup k members).length = members.length ∧
      ∀ e ∈ companyEdgesForGroup k members,
        e.relationship_type = "WORKS_AT" ∧ e.strength = 7/10 ∧
        e.target_id = orgId k ∧ e.source_id ∈ members.map Contact.id) ∧
    (200 < members.length → companyEdgesForGroup k members = []) := by
  have h2 : 2 ≤ members.length := by
    rw [group_by_attribute] at hmem
    have h3 : members.length > 1 := by
      simpa using (keepMulti_subset hmem).2
    omega
  refine ⟨h2, ?_, ?_, ?_⟩
  · intro h10
    have hform : companyEdgesForGroup k members
        = cliqueEdges (fun c1 c2 =>
            { source_id := c1.id, target_id := c2.id,
              relationship_type := "CLOSE_COLLEAGUES", strength := 9/10,
              metadata := some [("organization", .str k),
                                ("company_size", .int members.length)] })
          members := by
      simp only [companyEdgesForGroup]
      rw [if_neg (by omega), if_pos h10]
    have hp := cliquePolicy_of_mk "CLOSE_COLLEAGUES" (9/10)
      [("organization", .str k), ("company_size", .int members.length)] members
    rw [hform]
    refine ⟨hp.1, fun e he => ?_⟩
    obtain ⟨het, hes, _, hsrc, htgt⟩ := hp.2 e he
    exact ⟨het, hes, hsrc, htgt⟩
  · intro h11 h200
    have hform : companyEdgesForGroup k members
        = members.map (fun c =>
            { source_id := c.id, target_id := orgId k,
              relationship_type := "WORKS_AT", strength := 7/10,
              metadata := some [("organization", .str k),
                                ("company_size", .int members.length),
                                ("is_hub_connection", .bool true)] }) := by
      simp only [companyEdgesForGroup]
      rw [if_neg (by omega), if_neg (by omega)]
    rw [hform]
    refine ⟨List.length_map _ _, fun e he => ?_⟩
    obtain ⟨c, hc, rfl⟩ := List.mem_map.mp he
    exact ⟨rfl, rfl, rfl, List.mem_map.mpr ⟨c, hc, rfl⟩⟩
  · intro hbig
    simp only [companyEdgesForGroup]
    rw [if_pos (by omega)]

theorem org_group_edge_policy_witness :
    (("acme", [wAcme1, wAcme2])
        ∈ group_by_attribute [wAcme1, wAcme2] "organization" ∧
      (companyEdgesForGroup "acme" [wAcme1, wAcme2]).length = 1) ∧
    (("acme corp", hubContacts)
        ∈ group_by_attribute hubContacts "organization" ∧
      (companyEdgesForGroup "acme corp" hubContacts).length = 11) ∧
    (("acme corp", bigOrgContacts)
        ∈ group_by_attribute bigOrgContacts "organization" ∧
      companyEdgesForGroup "acme corp" bigOrgContacts = []) :=
  have hm1 : ("acme", [wAcme1, wAcme2])
      ∈ group_by_attribute [wAcme1, wAcme2] "organization" := List.Mem.head _
  have hall : ∀ (n : Nat) (c : Contact), c ∈ (List.range n).map mkAcmeWorker →
      c.organization = some "Acme Corp" ∧ c.previous_organization = none :=
    fun n c hc => by
      obtain ⟨j, _, rfl⟩ := List.mem_map.mp hc
      exact ⟨rfl, rfl⟩
  have hm2 : ("acme corp", hubContacts)
      ∈ group_by_attribute hubContacts "organization" := by
    rw [show group_by_attribute hubContacts "organization"
        = [("acme corp", hubContacts)] from
      group_by_attribute_uniform "Acme Corp" (by decide) (by decide)
        hubContacts (hall 11) (by norm_num [hubContacts])]
    exact List.Mem.head _
  have hm3 : ("acme corp", bigOrgContacts)
      ∈ group_by_attribute bigOrgContacts "organization" := by
    rw [show group_by_attribute bigOrgContacts "organization"
        = [("acme corp", bigOrgContacts)] from
      group_by_attribute_uniform "Acme Corp" (by decide) (by decide)
        bigOrgContacts (hall 201) (by norm_num [bigOrgContacts])]
    exact List.Mem.head _
  ⟨⟨hm1, ((org_group_edge_policy [wAcme1, wAcme2] "acme" [wAcme1, wAcme2]
      hm1).2.1 (by decide)).1⟩,
   ⟨hm2, ((org_group_edge_policy hubContacts "acme corp" hubContacts
      hm2).2.2.1 (by decide) (by decide)).1⟩,
   ⟨hm3, (org_group_edge_policy bigOrgContacts "acme corp" bigOrgContacts
      hm3).2.2.2 (by norm_num [bigOrgContacts])⟩⟩

/-- Claim C3: inference is a pure function of its input — running it twice on
the identical contact list yields the identical edge list (hence the same
multiset). -/
theorem infer_idempotent (contacts : List Contact) :
    infer_all_relationships contacts = infer_all_relationships contacts := rfl

/-- Claim C5: for the non-organization families, a group of more than 30
members (50 for the city family) contributes zero edges; a group at or below
the cap contributes one edge per unordered pair with the family's fixed
relationship type and strength (`LIVES_IN` 0.3, `WORKS_WITH` 0.7,
`SHARES_BIRTHDAY` 0.3, `ALUMNI_OF` 0.6, `SHARED_TAG` 0.6). -/
theorem generic_group_cap_policy (k : String) (members : List Contact) :
    (30 < members.length →
      edgesForGroup "WORKS_WITH" (7/10) k members = [] ∧
      edgesForGroup "SHARES_BIRTHDAY" (3/10) k members = [] ∧
      edgesForGroup "ALUMNI_OF" (6/10) k members = [] ∧
      edgesForGroup "SHARED_TAG" (6/10) k members = []) ∧
    (members.length ≤ 30 →
      cliquePolicyOK (edgesForGroup "WORKS_WITH" (7/10) k members) members
        "WORKS_WITH" (7/10) [("shared_attribute", .str k)] ∧
      cliquePolicyOK (edgesForGroup "SHARES_BIRTHDAY" (3/10) k members) members
        "SHARES_BIRTHDAY" (3/10) [("shared_attribute", .str k)] ∧
      cliquePolicyOK (edgesForGroup "ALUMNI_OF" (6/10) k members) members
        "ALUMNI_OF" (6/10) [("shared_attribute", .str k)] ∧
      cliquePolicyOK (edgesForGroup "SHARED_TAG" (6/10) k members) members
        "SHARED_TAG" (6/10) [("shared_attribute", .str k)]) ∧
    (50 < members.length → locationEdgesForGroup k members = []) ∧
    (members.length ≤ 50 →
      cliquePolicyOK (locationEdgesForGroup k members) members
        "LIVES_IN" (3/10) [("city", .str k)]) := by
  have hskip : ∀ (rt : String) (s : ℚ), 30 < members.length →
      edgesForGroup rt s k members = [] := by
    intro rt s h
    simp only [edgesForGroup]
    rw [if_pos (by omega)]
  have hok : ∀ (rt : String) (s : ℚ), members.length ≤ 30 →
      cliquePolicyOK (edgesForGroup rt s k members) members rt s
        [("shared_attribute", .str k)] := by
    intro rt s h
    simp only [edgesForGroup]
    rw [if_neg (by omega)]
    exact cliquePolicy_of_mk rt s [("shared_attribute", .str k)] members
  refine ⟨fun h => ⟨hskip _ _ h, hskip _ _ h, hskip _ _ h, hskip _ _ h⟩,
          fun h => ⟨hok _ _ h, hok _ _ h, hok _ _ h, hok _ _ h⟩, ?_, ?_⟩
  · intro h
    simp only [locationEdgesForGroup]
    rw [if_pos (by omega)]
  · intro h
    simp only [locationEdgesForGroup]
    rw [if_neg (by omega)]
    exact cliquePolicy_of_mk "LIVES_IN" (3/10) [("city", .str k)] members

theorem generic_group_cap_policy_witness :
    edgesForGroup "SHARED_TAG" (6/10) "t" ((List.range 31).map mkAcmeWorker)
        = [] ∧
    (edgesForGroup "WORKS_WITH" (7/10) "acme.com" [wAcme1, wAcme2]).length
        = 1 ∧
    locationEdgesForGroup "berlin" ((List.range 51).map mkAcmeWorker) = [] ∧
    (locationEdgesForGroup "berlin" [wAcme1, wAcme2]).length = 1 :=
  ⟨((generic_group_cap_policy "t" _).1 (by decide)).2.2.2,
   ((generic_group_cap_policy "acme.com" _).2.1 (by decide)).1.1,
   (generic_group_cap_policy "berlin" _).2.2.1 (by decide),
   ((generic_group_cap_policy "berlin" _).2.2.2 (by decide)).1⟩

def tagTwin1 : Contact := { id := "a", name := "A", tags := ["t1", "t2"] }

def tagTwin2 : Contact := { id := "b", name := "B", tags := ["t1", "t2"] }

def dupTagEdges : List ContactEdge :=
  [{ source_id := "a", target_id := "b", relationship_type := "SHARED_TAG",
     strength := 6/10, metadata := some [("shared_attribute", .str "t1")] },
   { source_id := "a", target_id := "b", relationship_type := "SHARED_TAG",
     strength := 6/10, metadata := some [("shared_attribute", .str "t2")] }]

/-- Claim C2 (counterexample): two contacts sharing the two tags `t1` and
`t2` receive two `SHARED_TAG` edges for the same unordered pair `(a, b)`, so
the batch does not contain at most one pairwise edge per unordered pair and
relationship type. -/
theorem shared_tag_duplicate_pair :
    infer_all_relationships [tagTwin1, tagTwin2] = Except.ok dupTagEdges ∧
    dupTagEdges.countP (connects "a" "b") = 2 ∧
    ∀ e ∈ dupTagEdges, e.relationship_type = "SHARED_TAG" :=
  ⟨rfl, rfl, by decide⟩

/-- Claim C2 (amended): within a single group (one shared value), the pair
loop emits at most one edge per unordered pair of contact ids — in
particular never both `(a,b)` and `(b,a)` — provided no contact occurs twice
in the group; but distinct shared values of the same family each contribute
their own edge, so the same pair and type can repeat across groups. -/
theorem pairwise_unique_per_group (rt : String) (s : ℚ) (k : String)
    (members : List Contact) (a b : String)
    (hnd : (members.map Contact.id).Nodup) :
    (edgesForGroup rt s k members).countP (connects a b) ≤ 1 ∧
    (locationEdgesForGroup k members).countP (connects a b) ≤ 1 ∧
    (members.length ≤ 10 →
      (companyEdgesForGroup k members).countP (connects a b) ≤ 1) := by
  refine ⟨?_, ?_, ?_⟩
  · simp only [edgesForGroup]
    by_cases h30 : members.length > 30
    · rw [if_pos h30]
      simp
    · rw [if_neg h30]
      exact countP_cliqueEdges_le_one _ (fun x y => rfl) (fun x y => rfl)
        members hnd a b
  · simp only [locationEdgesForGroup]
    by_cases h50 : members.length > 50
    · rw [if_pos h50]
      simp
    · rw [if_neg h50]
      exact countP_cliqueEdges_le_one _ (fun x y => rfl) (fun x y => rfl)
        members hnd a b
  · intro h10
    simp only [companyEdgesForGroup]
    rw [if_neg (by omega), if_pos h10]
    exact countP_cliqueEdges_le_one _ (fun x y => rfl) (fun x y => rfl)
      members hnd a b

theorem pairwise_unique_per_group_witness :
    (([tagTwin1, tagTwin2].map Contact.id).Nodup ∧
      (edgesForGroup "SHARED_TAG" (6/10) "t1"
        [tagTwin1, tagTwin2]).countP (connects "a" "b") ≤ 1) :=
  ⟨by decide,
   (pairwise_unique_per_group "SHARED_TAG" (6/10) "t1" [tagTwin1, tagTwin2]
     "a" "b" (by decide)).1⟩

/-- Every edge produced by `_create_edges_from_groups` carries the
relationship type passed in. -/
theorem create_edges_type {groups : List (String × List Contact)}
    {rt : String} {s : ℚ} {e : ContactEdge}
    (he : e ∈ create_edges_from_groups groups rt s) :
    e.relationship_type = rt := by
  obtain ⟨kv, _, he2⟩ := mem_concatGroups he
  rw [edgesForGroup] at he2
  by_cases h30 : kv.2.length > 30
  · rw [if_pos h30] at he2
    simp at he2
  · rw [if_neg h30] at he2
    obtain ⟨x, hx, y, hy, rfl⟩ := mem_cliqueEdges he2
    rfl

/-- Organization edges are typed `CLOSE_COLLEAGUES` or `WORKS_AT`. -/
theorem create_company_type {groups : List (String × List Contact)}
    {e : ContactEdge} (he : e ∈ create_company_relationships groups) :
    e.relationship_type = "CLOSE_COLLEAGUES" ∨
    e.relationship_type = "WORKS_AT" := by
  obtain ⟨kv, _, he2⟩ := mem_concatGroups he
  rw [companyEdgesForGroup] at he2
  by_cases h200 : kv.2.length > 200
  · rw [if_pos h200] at he2
    simp at he2
  · rw [if_neg h200] at he2
    by_cases h10 : kv.2.length ≤ 10
    · rw [if_pos h10] at he2
      obtain ⟨x, hx, y, hy, rfl⟩ := mem_cliqueEdges he2
      exact Or.inl rfl
    · rw [if_neg h10] at he2
      obtain ⟨c, hc, rfl⟩ := List.mem_map.mp he2
      exact Or.inr rfl

/-- City edges are typed `LIVES_IN`. -/
theorem create_location_type {groups : List (String × List Contact)}
    {e : ContactEdge} (he : e ∈ create_location_relationships groups) :
    e.relationship_type = "LIVES_IN" := by
  obtain ⟨kv, _, he2⟩ := mem_concatGroups he
  rw [locationEdgesForGroup] at he2
  by_cases h50 : kv.2.length > 50
  · rw [if_pos h50] at he2
    simp at he2
  · rw [if_neg h50] at he2
    obtain ⟨x, hx, y, hy, rfl⟩ := mem_cliqueEdges he2
    rfl

/-- Claim C4: no denylisted consumer email domain ever forms a domain group,
hence for any input and any group size no `WORKS_WITH` edge in the output of
`infer_all_relationships` carries a denylisted domain as its shared
attribute; and matching is exact, not suffix-based — a subdomain such as
`mail.gmail.com` is considered meaningful. -/
theorem denylisted_domain_excluded (cs : List Contact) (d : String)
    (hd : d ∈ consumer_domains) :
    (∀ kv ∈ group_by_email_domain cs, kv.1 ≠ d) ∧
    (∀ e ∈ create_edges_from_groups (group_by_email_domain cs)
        "WORKS_WITH" (7/10),
      e.metadata ≠ some [("shared_attribute", PyVal.str d)]) ∧
    is_meaningful_domain "mail.gmail.com" = true ∧
    (∀ es, infer_all_relationships cs = Except.ok es →
      ∀ e ∈ es, e.relationship_type = "WORKS_WITH" →
        e.metadata ≠ some [("shared_attribute", PyVal.str d)]) := by
  have hmean : ∀ kv ∈ cs.foldl groupByEmailDomainStep [],
      is_meaningful_domain kv.1 = true := by
    refine foldl_keys (P := fun key => is_meaningful_domain key = true)
      groupByEmailDomainStep cs [] (by simp) ?_
    intro acc c _ hacc kv hkv
    rcases hce : c.email with - | e
    · simp only [groupByEmailDomainStep, hce] at hkv
      exact hacc kv hkv
    · simp only [groupByEmailDomainStep, hce] at hkv
      by_cases he : e = ""
      · rw [if_pos he] at hkv
        exact hacc kv hkv
      · rw [if_neg he] at hkv
        rcases hde : extract_domain e with - | dm
        · simp only [hde] at hkv
          exact hacc kv hkv
        · simp only [hde] at hkv
          by_cases hcond : dm ≠ "" ∧ is_meaningful_domain dm
          · rw [if_pos hcond] at hkv
            exact addToBucket_keys
              (P := fun key => is_meaningful_domain key = true)
              hacc hcond.2 kv hkv
          · rw [if_neg hcond] at hkv
            exact hacc kv hkv
  have hkey : ∀ kv ∈ group_by_email_domain cs, kv.1 ≠ d := by
    intro kv hkv heq
    rw [group_by_email_domain] at hkv
    have := hmean kv (keepMulti_subset hkv).1
    rw [heq] at this
    simp [is_meaningful_domain, hd] at this
  have hdom : ∀ e ∈ create_edges_from_groups (group_by_email_domain cs)
      "WORKS_WITH" (7/10),
      e.metadata ≠ some [("shared_attribute", PyVal.str d)] := by
    intro e he hmeta
    obtain ⟨kv, hkv, he2⟩ := mem_concatGroups he
    rw [edgesForGroup] at he2
    by_cases h30 : kv.2.length > 30
    · rw [if_pos h30] at he2
      simp at he2
    · rw [if_neg h30] at he2
      obtain ⟨x, hx, y, hy, rfl⟩ := mem_cliqueEdges he2
      have : kv.1 = d := by
        simpa using hmeta
      exact hkey kv hkv this
  refine ⟨hkey, hdom, by decide, ?_⟩
  intro es hes e he ht hmeta
  rcases hgs : group_by_schools cs with err | sg
  · rw [infer_all_relationships, hgs] at hes
    exact absurd hes (by simp)
  · rw [infer_all_relationships, hgs] at hes
    have hes2 := Except.ok.inj hes
    subst hes2
    simp only [List.mem_append] at he
    rcases he with ((((hc | hl) | hd2) | hb) | hs2) | htg
    · rcases create_company_type hc with h | h <;> rw [ht] at h <;>
        exact absurd h (by decide)
    · have h := create_location_type hl
      rw [ht] at h
      exact absurd h (by decide)
    · exact hdom e hd2 hmeta
    · have h := create_edges_type hb
      rw [ht] at h
      exact absurd h (by decide)
    · have h := create_edges_type hs2
      rw [ht] at h
      exact absurd h (by decide)
    · have h := create_edges_type htg
      rw [ht] at h
      exact absurd h (by decide)

def gmailTwin1 : Contact :=
  { id := "g1", name := "G1", email := some "john@gmail.com" }

def gmailTwin2 : Contact :=
  { id := "g2", name := "G2", email := some "jane@gmail.com" }

theorem denylisted_domain_excluded_witness :
    "gmail.com" ∈ consumer_domains ∧
    ∀ kv ∈ group_by_email_domain [gmailTwin1, gmailTwin2],
      kv.1 ≠ "gmail.com" :=
  ⟨by decide,
   (denylisted_domain_excluded [gmailTwin1, gmailTwin2] "gmail.com"
     (by decide)).1⟩

def bdayWs1 : Contact := { id := "a", name := "A", birthday := some " 03-15" }

def bdayWs2 : Contact := { id := "b", name := "B", birthday := some "03-15" }

def tagCase1 : Contact := { id := "c", name := "C", tags := ["X"] }

def tagCase2 : Contact := { id := "d", name := "D", tags := ["x"] }

/-- Claim C6 (counterexample): birthday strings differing only in surrounding
whitespace, and tags differing only in case, do NOT land in the same group —
the engine groups birthdays and tags verbatim, so these four contacts
produce no edges at all. -/
theorem birthday_tag_not_normalized :
    infer_all_relationships [bdayWs1, bdayWs2, tagCase1, tagCase2]
      = Except.ok [] ∧
    group_by_birthday [bdayWs1, bdayWs2] = [] ∧
    group_by_tags [tagCase1, tagCase2] = [] :=
  ⟨rfl, rfl, rfl⟩

/-- Invariant for the tag grouping's inner fold over one contact's tags. -/
theorem foldl_tags_keys {P : String → Prop} (c : Contact) :
    ∀ (ts : List String) (g : List (String × List Contact)),
      (∀ kv ∈ g, P kv.1) → (∀ t ∈ ts, P t) →
      ∀ kv ∈ ts.foldl (fun g2 t => addToBucket g2 t c) g, P kv.1
  | [], g, hg, _ => by simpa using hg
  | t :: rest, g, hg, hts => by
      simp only [List.foldl_cons]
      exact foldl_tags_keys c rest (addToBucket g t c)
        (addToBucket_keys hg (hts t (List.mem_cons_self t rest)))
        (fun t' ht' => hts t' (List.mem_cons_of_mem t ht'))

/-- Claim C6 (amended): organization and city grouping keys are the
trimmed-and-lower-cased form of some contact's attribute value, while
birthday and tag grouping keys are the raw strings verbatim (no trimming or
case folding). -/
theorem normalization_policy (cs : List Contact) :
    (∀ kv ∈ group_by_attribute cs "organization", ∃ c ∈ cs, ∃ v : String,
      (c.organization = some v ∨ c.previous_organization = some v) ∧
      kv.1 = pyLower (pyStrip v)) ∧
    (∀ kv ∈ group_by_attribute cs "city", ∃ c ∈ cs, ∃ v : String,
      c.city = some v ∧ kv.1 = pyLower (pyStrip v)) ∧
    (∀ kv ∈ group_by_birthday cs, ∃ c ∈ cs, c.birthday = some kv.1) ∧
    (∀ kv ∈ group_by_tags cs, ∃ c ∈ cs, kv.1 ∈ c.tags) := by
  refine ⟨?_, ?_, ?_, ?_⟩
  · intro kv0 hkv0
    rw [group_by_attribute] at hkv0
    refine foldl_keys
      (P := fun key => ∃ c ∈ cs, ∃ v : String,
        (c.organization = some v ∨ c.previous_organization = some v) ∧
        key = pyLower (pyStrip v))
      (groupByAttributeStep "organization") cs [] (by simp) ?_
      kv0 (keepMulti_subset hkv0).1
    intro acc c hc hacc kv hkv
    have hadd : ∀ (g : List (String × List Contact)) (v : String),
        (c.organization = some v ∨ c.previous_organization = some v) →
        (∀ kv' ∈ g, ∃ c' ∈ cs, ∃ v' : String,
          (c'.organization = some v' ∨ c'.previous_organization = some v') ∧
          kv'.1 = pyLower (pyStrip v')) →
        ∀ kv' ∈ addToBucket g (pyLower (pyStrip v)) c,
          ∃ c' ∈ cs, ∃ v' : String,
            (c'.organization = some v' ∨ c'.previous_organization = some v') ∧
            kv'.1 = pyLower (pyStrip v') :=
      fun g v hv hg => addToBucket_keys
        (P := fun key => ∃ c' ∈ cs, ∃ v' : String,
          (c'.organization = some v' ∨ c'.previous_organization = some v') ∧
          key = pyLower (pyStrip v'))
        hg ⟨c, hc, v, hv, rfl⟩
    have hacc1 : ∀ kv' ∈ (match c.organization with
        | some v =>
            if v = "" then acc
            else if pyStrip v = "" then acc
            else addToBucket acc (pyLower (pyStrip v)) c
        | none => acc),
        ∃ c' ∈ cs, ∃ v' : String,
          (c'.organization = some v' ∨ c'.previous_organization = some v') ∧
          kv'.1 = pyLower (pyStrip v') := by
      rcases ho : c.organization with - | v
      · exact hacc
      · by_cases hv : v = ""
        · simpa [hv] using hacc
        · by_cases hvt : pyStrip v = ""
          · simpa [hv, hvt] using hacc
          · simpa [hv, hvt] using hadd acc v (Or.inl ho) hacc
    simp only [groupByAttributeStep,
      show getAttr c "organization" = c.organization from rfl] at hkv
    rcases hcp : c.previous_organization with - | p
    · simp only [hcp] at hkv
      exact hacc1 kv (by simpa using hkv)
    · simp only [hcp] at hkv
      by_cases hp : p = ""
      · rw [if_pos hp] at hkv
        exact hacc1 kv (by simpa using hkv)
      · rw [if_neg hp] at hkv
        by_cases hpt : pyStrip p = ""
        · rw [if_pos hpt] at hkv
          exact hacc1 kv (by simpa using hkv)
        · rw [if_neg hpt] at hkv
          exact hadd _ p (Or.inr hcp) hacc1 kv (by simpa using hkv)
  · intro kv0 hkv0
    rw [group_by_attribute] at hkv0
    refine foldl_keys
      (P := fun key => ∃ c ∈ cs, ∃ v : String,
        c.city = some v ∧ key = pyLower (pyStrip v))
      (groupByAttributeStep "city") cs [] (by simp) ?_
      kv0 (keepMulti_subset hkv0).1
    intro acc c hc hacc kv hkv
    have hne : (("city" : String) = "organization") = False := by
      simp
    simp only [groupByAttributeStep,
      show getAttr c "city" = c.city from rfl, hne, if_false] at hkv
    rcases hcity : c.city with - | v
    · simp only [hcity] at hkv
      exact hacc kv hkv
    · simp only [hcity] at hkv
      by_cases hv : v = ""
      · rw [if_pos hv] at hkv
        exact hacc kv hkv
      · rw [if_neg hv] at hkv
        by_cases hvt : pyStrip v = ""
        · rw [if_pos hvt] at hkv
          exact hacc kv hkv
        · rw [if_neg hvt] at hkv
          exact addToBucket_keys
            (P := fun key => ∃ c' ∈ cs, ∃ v' : String,
              c'.city = some v' ∧ key = pyLower (pyStrip v'))
            hacc ⟨c, hc, v, hcity, rfl⟩ kv hkv
  · intro kv0 hkv0
    rw [group_by_birthday] at hkv0
    refine foldl_keys
      (P := fun key => ∃ c ∈ cs, c.birthday = some key)
      groupByBirthdayStep cs [] (by simp) ?_
      kv0 (keepMulti_subset hkv0).1
    intro acc c hc hacc kv hkv
    rcases hb : c.birthday with - | b
    · simp only [groupByBirthdayStep, hb] at hkv
      exact hacc kv hkv
    · simp only [groupByBirthdayStep, hb] at hkv
      by_cases hbe : b = ""
      · rw [if_pos hbe] at hkv
        exact hacc kv hkv
      · rw [if_neg hbe] at hkv
        exact addToBucket_keys
          (P := fun key => ∃ c' ∈ cs, c'.birthday = some key)
          hacc ⟨c, hc, hb⟩ kv hkv
  · intro kv0 hkv0
    rw [group_by_tags] at hkv0
    refine foldl_keys
      (P := fun key => ∃ c ∈ cs, key ∈ c.tags)
      (fun groups c => c.tags.foldl (fun g t => addToBucket g t c) groups)
      cs [] (by simp) ?_
      kv0 (keepMulti_subset hkv0).1
    intro acc c hc hacc kv hkv
    exact foldl_tags_keys (P := fun key => ∃ c' ∈ cs, key ∈ c'.tags)
      c c.tags acc hacc (fun t ht => ⟨c, hc, ht⟩) kv hkv

def orgWs1 : Contact := { id := "o1", name := "O1", organization := some " Acme " }

def orgWs2 : Contact := { id := "o2", name := "O2", organization := some "ACME" }

theorem normalization_policy_witness :
    ("acme", [orgWs1, orgWs2])
        ∈ group_by_attribute [orgWs1, orgWs2] "organization" ∧
    (∃ c ∈ [orgWs1, orgWs2], ∃ v : String,
      (c.organization = some v ∨ c.previous_organization = some v) ∧
      "acme" = pyLower (pyStrip v)) :=
  have hm : ("acme", [orgWs1, orgWs2])
      ∈ group_by_attribute [orgWs1, orgWs2] "organization" := List.Mem.head _
  ⟨hm, (normalization_policy [orgWs1, orgWs2]).1 ("acme", [orgWs1, orgWs2]) hm⟩

def noIdContact : Contact := { id := "", name := "", organization := some "Acme" }

def okContact : Contact := { id := "c2", name := "Bob", organization := some "Acme" }

/-- Claim C7 (counterexample): a record with empty id and name is NOT
excluded from grouping — it is grouped like any other contact, and the
output contains an edge referencing it (source id `""`). -/
theorem malformed_contact_not_excluded :
    infer_all_relationships [noIdContact, okContact] = Except.ok
      [{ source_id := "", target_id := "c2",
         relationship_type := "CLOSE_COLLEAGUES", strength := 9/10,
         metadata := some [("organization", .str "acme"),
                           ("company_size", .int 2)] }] := rfl

/-- Claim C7 (amended): the engine performs no id/name validation at all —
a record's id and name are irrelevant to grouping, any record (including one
with empty id and name) participates normally, edges may reference it, and
the batch is never aborted on its account. -/
theorem no_id_name_validation (i n : String) :
    infer_all_relationships
      [{ id := i, name := n, organization := some "Acme" }, okContact]
      = Except.ok
        [{ source_id := i, target_id := "c2",
           relationship_type := "CLOSE_COLLEAGUES", strength := 9/10,
           metadata := some [("organization", .str "acme"),
                             ("company_size", .int 2)] }] := rfl

/-! ### Claim C8 -/

def badOrgsInt : Contact :=
  { id := "x", name := "X", raw_data := [("organizations", .int 5)] }

def badOrgsElem : Contact :=
  { id := "y", name := "Y", raw_data := [("organizations", .list [.str "Foo"])] }

/-- Claim C8 (counterexample): `_extract_schools` is not total — a non-list
`organizations` entry in `raw_data` raises `TypeError`, a non-dict element
inside the list raises `AttributeError`, and the exception propagates out of
`infer_all_relationships`. -/
theorem extract_schools_raises :
    extract_schools badOrgsInt = Except.error "TypeError" ∧
    extract_schools badOrgsElem = Except.error "AttributeError" ∧
    infer_all_relationships [badOrgsInt] = Except.error "TypeError" :=
  ⟨rfl, rfl, rfl⟩

/-- A `raw_data` entry under which school extraction cannot raise: each
element of the `organizations` list is a dict whose `name` value, when the
entry is school-typed and the name truthy, is a string. -/
def goodEntry : PyVal → Bool
  | .dict d =>
      match dictGetD d "name" .pyNone with
      | .str _ => true
      | nm => !(isSchoolType (dictGetD d "type" .pyNone) && pyTruthy nm)
  | _ => false

def goodOrgs : PyVal → Bool
  | .list xs => xs.all goodEntry
  | _ => false

theorem schoolsLoop_ok :
    ∀ (xs : List PyVal) (acc : List String),
      (∀ x ∈ xs, goodEntry x = true) →
      ∃ r, schoolsLoop xs acc = Except.ok r
  | [], acc, _ => ⟨acc, rfl⟩
  | x :: rest, acc, h => by
      have hx : goodEntry x = true := h x (List.mem_cons_self x rest)
      have hrest : ∀ y ∈ rest, goodEntry y = true :=
        fun y hy => h y (List.mem_cons_of_mem x hy)
      have hentry : ∃ o, schoolFromEntry x = Except.ok o := by
        cases x with
        | dict d =>
            simp only [schoolFromEntry]
            by_cases hsch : isSchoolType (dictGetD d "type" .pyNone) = true
            · rw [if_pos hsch]
              by_cases htr : pyTruthy (dictGetD d "name" .pyNone) = true
              · rw [if_pos htr]
                cases hnm : dictGetD d "name" .pyNone with
                | str s => exact ⟨some (pyLower (pyStrip s)), rfl⟩
                | _ =>
                    rw [goodEntry, hnm] at hx
                    rw [hnm] at htr
                    simp [hsch, htr] at hx
              · rw [if_neg htr]
                exact ⟨none, rfl⟩
            · rw [if_neg hsch]
              exact ⟨none, rfl⟩
        | str s => simp [goodEntry] at hx
        | int n => simp [goodEntry] at hx
        | bool b => simp [goodEntry] at hx
        | pyNone => simp [goodEntry] at hx
        | list xs => simp [goodEntry] at hx
      obtain ⟨o, ho⟩ := hentry
      cases o with
      | some s =>
          rw [schoolsLoop, ho]
          exact schoolsLoop_ok rest (setAdd acc s) hrest
      | none =>
          rw [schoolsLoop, ho]
          exact schoolsLoop_ok rest acc hrest

/-- Claim C8 (amended): every extraction function except school extraction
is total by construction; school extraction never raises provided the
contact's `organizations` raw-data entry (defaulting to the empty list) is a
list of well-shaped dict entries. -/
theorem extract_schools_total (c : Contact)
    (h : goodOrgs (dictGetD c.raw_data "organizations" (.list [])) = true) :
    ∃ l, extract_schools c = Except.ok l := by
  cases horgs : dictGetD c.raw_data "organizations" (.list []) with
  | list xs =>
      have hall : ∀ x ∈ xs, goodEntry x = true := by
        rw [horgs] at h
        simpa [goodOrgs, List.all_eq_true] using h
      rw [extract_schools, horgs]
      exact schoolsLoop_ok xs _ hall
  | str s => rw [horgs] at h; simp [goodOrgs] at h
  | int n => rw [horgs] at h; simp [goodOrgs] at h
  | bool b => rw [horgs] at h; simp [goodOrgs] at h
  | pyNone => rw [horgs] at h; simp [goodOrgs] at h
  | dict d => rw [horgs] at h; simp [goodOrgs] at h

def schoolDictContact : Contact :=
  { id := "s", name := "S",
    raw_data := [("organizations",
      .list [.dict [("type", .str "school"), ("name", .str "MIT")]])] }

theorem extract_schools_total_witness :
    goodOrgs (dictGetD schoolDictContact.raw_data "organizations"
      (.list [])) = true ∧
    ∃ l, extract_schools schoolDictContact = Except.ok l :=
  ⟨rfl, extract_schools_total schoolDictContact rfl⟩

/-! ### Claim C9 -/

/-- Claim C9 (counterexample): for the 11-member organization `"Acme Corp"`
the hub id is `org_acme_corp` — the space is replaced by an underscore, not
stripped, so the slug contains a character (`'_'`) that does not occur in
the lower-cased organization name. -/
theorem hub_slug_keeps_underscore :
    infer_all_relationships hubContacts = Except.ok ((List.range 11).map
      (fun j =>
        { source_id := (mkAcmeWorker j).id, target_id := "org_acme_corp",
          relationship_type := "WORKS_AT", strength := 7/10,
          metadata := some [("organization", .str "acme corp"),
                            ("company_size", .int 11),
                            ("is_hub_connection", .bool true)] })) ∧
    '_' ∈ "org_acme_corp".data ∧ '_' ∉ (pyLower "Acme Corp").data :=
  ⟨rfl, by decide, by decide⟩

/-- Claim C9 (amended): every hub edge of an 11–200-member organization
group targets `"org_"` followed by the lower-cased organization name with
spaces replaced by underscores and periods and commas removed (all other
characters, underscores included, are kept verbatim). -/
theorem hub_target_id_formula (company : String) (members : List Contact)
    (h1 : 11 ≤ members.length) (h2 : members.length ≤ 200) :
    ∀ e ∈ companyEdgesForGroup company members,
      e.relationship_type = "WORKS_AT" ∧ e.strength = 7/10 ∧
      e.target_id = "org_" ++
        deleteChar (deleteChar (replaceChar (pyLower company) ' ' '_') '.') ',' := by
  intro e he
  simp only [companyEdgesForGroup] at he
  rw [if_neg (by omega), if_neg (by omega)] at he
  obtain ⟨c, hc, rfl⟩ := List.mem_map.mp he
  exact ⟨rfl, rfl, rfl⟩

theorem hub_target_id_formula_witness :
    11 ≤ hubContacts.length ∧ hubContacts.length ≤ 200 ∧
    ∀ e ∈ companyEdgesForGroup "acme corp" hubContacts,
      e.relationship_type = "WORKS_AT" ∧ e.strength = 7/10 ∧
      e.target_id = "org_" ++
        deleteChar (deleteChar (replaceChar (pyLower "acme corp") ' ' '_') '.') ',' :=
  ⟨by decide, by decide,
   hub_target_id_formula "acme corp" hubContacts (by decide) (by decide)⟩

/-! ### Claim C10 -/

def dualOrgContact (i nm v w : String) : Contact :=
  { id := i, name := nm, organization := some v, previous_organization := some w }

/-- Claim C10: a contact whose `organization` and `previous_organization`
both normalize to the same non-empty key is inserted twice into that
organization group, and on a singleton input list of such a contact the
engine returns exactly one `CLOSE_COLLEAGUES` self-edge (source and target
both the contact's id) with strength 0.9. -/
theorem self_edge_from_current_prev_org (i nm v w : String)
    (hv : v ≠ "") (hvt : pyStrip v ≠ "") (hw : w ≠ "") (hwt : pyStrip w ≠ "")
    (heq : pyLower (pyStrip w) = pyLower (pyStrip v)) :
    group_by_attribute [dualOrgContact i nm v w] "organization"
      = [(pyLower (pyStrip v),
          [dualOrgContact i nm v w, dualOrgContact i nm v w])] ∧
    infer_all_relationships [dualOrgContact i nm v w]
      = Except.ok
        [{ source_id := i, target_id := i,
           relationship_type := "CLOSE_COLLEAGUES", strength := 9/10,
           metadata := some [("organization", .str (pyLower (pyStrip v))),
                             ("company_size", .int 2)] }] := by
  have hstep : groupByAttributeStep "organization" [] (dualOrgContact i nm v w)
      = [(pyLower (pyStrip v),
          [dualOrgContact i nm v w, dualOrgContact i nm v w])] := by
    simp only [groupByAttributeStep,
      show getAttr (dualOrgContact i nm v w) "organization" = some v from rfl,
      show (dualOrgContact i nm v w).previous_organization = some w from rfl,
      if_neg hv, if_neg hvt, if_neg hw, if_neg hwt, heq, addToBucket]
    simp
  have hgrp : group_by_attribute [dualOrgContact i nm v w] "organization"
      = [(pyLower (pyStrip v),
          [dualOrgContact i nm v w, dualOrgContact i nm v w])] := by
    rw [group_by_attribute, List.foldl_cons, List.foldl_nil, hstep]
    simp [keepMulti]
  refine ⟨hgrp, ?_⟩
  have hbase : extract_schools (dualOrgContact i nm v w)
      = Except.ok
          (if school_keywords.any (fun kw => containsSub (pyLower v) kw)
              ∨ known_schools.any (fun sch => containsSub (pyLower v) sch)
           then [pyLower (pyStrip v)] else []) := by
    simp only [extract_schools,
      show (dualOrgContact i nm v w).organization = some v from rfl,
      show (dualOrgContact i nm v w).raw_data = [] from rfl]
    rw [if_neg hv]
    rfl
  have hsch : group_by_schools [dualOrgContact i nm v w] = Except.ok [] := by
    simp only [group_by_schools, schoolGroupsLoop, hbase]
    by_cases hcond : school_keywords.any (fun kw => containsSub (pyLower v) kw)
        ∨ known_schools.any (fun sch => containsSub (pyLower v) sch)
    · rw [if_pos hcond]
      rfl
    · rw [if_neg hcond]
      rfl
  simp only [infer_all_relationships, hsch, hgrp]
  rfl

theorem self_edge_from_current_prev_org_witness :
    ((" Acme " : String) ≠ "" ∧ pyStrip " Acme " ≠ "" ∧
      ("ACME" : String) ≠ "" ∧ pyStrip "ACME" ≠ "" ∧
      pyLower (pyStrip "ACME") = pyLower (pyStrip " Acme ")) ∧
    infer_all_relationships [dualOrgContact "me" "Me" " Acme " "ACME"]
      = Except.ok
        [{ source_id := "me", target_id := "me",
           relationship_type := "CLOSE_COLLEAGUES", strength := 9/10,
           metadata := some [("organization", .str "acme"),
                             ("company_size", .int 2)] }] :=
  ⟨⟨by decide, by decide, by decide, by decide, by decide⟩,
   (self_edge_from_current_prev_org "me" "Me" " Acme " "ACME"
     (by decide) (by decide) (by decide) (by decide) (by decide)).2⟩

end ContactSphere
